import Mathlib

/-!
Shallow embedding of `src/objectEnumerationBuilder.ts` (the
`ObjectEnumerationBuilder` class of the Powerbi-Visuals-SampleMatrix
repository) together with theorems settling the frozen claims about it.

JavaScript objects used as string-keyed maps are modelled as association
lists in insertion order (matching `for ... in` enumeration order for
string keys); JavaScript values are modelled by an inductive `JSVal`
carrying an explicit truthiness predicate, since the source's `extend`
guards on truthiness of the stored value.
-/

/-- A JavaScript value, as far as the builder inspects values: the builder
only stores values and tests their truthiness. -/
inductive JSVal where
  | vundefined
  | vnull
  | vbool (b : Bool)
  | vnum (n : Int)
  | vstr (s : String)
deriving DecidableEq, Repr

/-- Truthiness of a JavaScript value (`undefined`, `null`, `false`, `0`,
and the empty string are falsy). -/
def JSVal.truthy : JSVal → Bool
  | .vundefined => false
  | .vnull => false
  | .vbool b => b
  | .vnum n => n != 0
  | .vstr s => s != ""

/-- A JavaScript object used as a string-keyed map (`properties`,
`validValues`), in insertion order. -/
abbrev PropMap := List (String × JSVal)

/-- Reading `m[k]`: the value at the first matching key, or `undefined`
when the key is absent. -/
def PropMap.get : PropMap → String → JSVal
  | [], _ => JSVal.vundefined
  | p :: ps, k => if p.1 = k then p.2 else PropMap.get ps k

/-- Writing `m[k] = v`: overwrite in place when the key exists, else append
(JavaScript objects keep insertion order of string keys and cannot hold a
key twice). -/
def PropMap.set : PropMap → String → JSVal → PropMap
  | [], k, v => [(k, v)]
  | p :: ps, k, v => if p.1 = k then (k, v) :: ps else p :: PropMap.set ps k v

/-- The `Selector` contract: the builder compares only `id` and `metadata`;
`data` stands for the rest of the record, which the builder never inspects. -/
structure Selector where
  id : Option String
  metadata : Option String
  data : Option String
deriving DecidableEq, Repr

/-- A selector argument as received by `selectorEquals` / stored on an
instance: JavaScript allows any falsy value (`undefined`, `null`, `false`)
in place of a selector record. -/
inductive SelectorInput where
  | undef
  | null
  | fls
  | sel (s : Selector)
deriving DecidableEq, Repr

/-- The `x || null` normalization at the top of `selectorEquals`: every
falsy selector collapses to `null` (modelled as `none`). -/
def SelectorInput.norm : SelectorInput → Option Selector
  | .undef => none
  | .null => none
  | .fls => none
  | .sel s => some s

/-- `ObjectEnumerationBuilder.selectorEquals`. After normalizing falsy
inputs to `null`, the source returns true when `x === y` (which covers the
both-`null` case; for two object references it implies field equality),
false when exactly one is `null`, and otherwise compares exactly the `id`
and `metadata` fields. -/
def selectorEquals (x y : SelectorInput) : Bool :=
  match x.norm, y.norm with
  | none, none => true
  | none, some _ => false
  | some _, none => false
  | some a, some b => a.id == b.id && a.metadata == b.metadata

/-- A `VisualObjectInstance`, restricted to the fields the builder touches.
`properties` / `validValues` distinguish an absent field (`none`) from a
present-but-empty object (`some []`), since the source tests them for
truthiness. -/
structure Instance where
  objectName : Option String
  selector : SelectorInput
  containerIdx : Option Nat
  properties : Option PropMap
  validValues : Option PropMap
deriving DecidableEq, Repr

/-- A `VisualObjectInstanceContainer`, opaque to the builder: it is carried
through unchanged and never inspected. -/
structure Container where
  tag : Nat
deriving DecidableEq, Repr

/-- `ObjectEnumerationBuilder.canMerge`. -/
def canMerge (x y : Instance) : Bool :=
  x.objectName == y.objectName &&
    x.containerIdx == y.containerIdx &&
    selectorEquals x.selector y.selector

/-- The key-copying loop of `ObjectEnumerationBuilder.extend`: for each
source key in enumeration order, skip it when the target's current value at
that key is truthy, otherwise write the source value. -/
def extendVals (target source : PropMap) : PropMap :=
  source.foldl
    (fun acc kv =>
      if (PropMap.get acc kv.1).truthy then acc else PropMap.set acc kv.1 kv.2)
    target

/-- `ObjectEnumerationBuilder.extend` on one field: a no-op when the source
field is absent; otherwise the target field is lazily allocated as an empty
map and extended by `extendVals`. -/
def extendField (target source : Option PropMap) : Option PropMap :=
  match source with
  | none => target
  | some src => some (extendVals (target.getD []) src)

/-- The two `extend` calls of `pushInstance`: fold the incoming instance's
`properties` and `validValues` into the existing instance. -/
def mergeInto (target source : Instance) : Instance :=
  { target with
    properties := extendField target.properties source.properties
    validValues := extendField target.validValues source.validValues }

/-- The mutable state of an `ObjectEnumerationBuilder`: all three fields
start out `undefined` (`none`); the two sequences are lazily allocated. -/
structure Builder where
  instances : Option (List Instance)
  containers : Option (List Container)
  containerIdx : Option Nat
deriving DecidableEq, Repr

/-- A freshly constructed builder. -/
def Builder.empty : Builder :=
  { instances := none, containers := none, containerIdx := none }

/-- The stamping step of `pushInstance`: when the current-container cursor
is set (`!= null`), write it onto the incoming instance. -/
def stampInstance (cursor : Option Nat) (inst : Instance) : Instance :=
  match cursor with
  | some idx => { inst with containerIdx := some idx }
  | none => inst

/-- The merge loop of `pushInstance`: scan the accumulated instances in
order; at the first one for which `canMerge` holds, extend it in place and
stop. `none` means the loop fell through without merging. -/
def mergeFirst (acc : List Instance) (inc : Instance) : Option (List Instance) :=
  match acc with
  | [] => none
  | x :: xs =>
    if canMerge x inc then
      some (mergeInto x inc :: xs)
    else
      match mergeFirst xs inc with
      | some xs' => some (x :: xs')
      | none => none

/-- `ObjectEnumerationBuilder.pushInstance`. -/
def Builder.pushInstance (b : Builder) (inst : Instance) (mergeInstances : Bool) : Builder :=
  let acc := b.instances.getD []
  let inst := stampInstance b.containerIdx inst
  if mergeInstances then
    match mergeFirst acc inst with
    | some acc' => { b with instances := some acc' }
    | none => { b with instances := some (acc ++ [inst]) }
  else
    { b with instances := some (acc ++ [inst]) }

/-- `ObjectEnumerationBuilder.pushContainer`. -/
def Builder.pushContainer (b : Builder) (c : Container) : Builder :=
  let cs := b.containers.getD [] ++ [c]
  { b with containers := some cs, containerIdx := some (cs.length - 1) }

/-- `ObjectEnumerationBuilder.popContainer`: resets the cursor to
`undefined`; there is no stack, so nothing is restored. -/
def Builder.popContainer (b : Builder) : Builder :=
  { b with containerIdx := none }

/-- A `VisualObjectInstanceEnumerationObject`: the canonical result shape.
The `containers` field is optional. -/
structure EnumObject where
  instances : List Instance
  containers : Option (List Container)
deriving DecidableEq, Repr

/-- `ObjectEnumerationBuilder.complete`: `undefined` (here `none`) when the
instance sequence was never allocated; otherwise the accumulated instances,
with the `containers` field present exactly when that sequence was
allocated. -/
def Builder.complete (b : Builder) : Option EnumObject :=
  match b.instances with
  | none => none
  | some insts => some { instances := insts, containers := b.containers }

/-- A `VisualObjectInstanceEnumeration` argument: `undefined`/`null` (the
"no result" sentinel), the bare list form, or the canonical object form. -/
inductive Enumeration where
  | noResult
  | list (xs : List Instance)
  | obj (e : EnumObject)
deriving DecidableEq, Repr

/-- `ObjectEnumerationBuilder.normalize`: wrap the bare list form as
`{ instances: x }`; pass everything else through unchanged (so the
sentinel stays falsy and an object is returned without copying). -/
def ObjectEnumerationBuilder.normalize : Enumeration → Option EnumObject
  | .noResult => none
  | .list xs => some { instances := xs, containers := none }
  | .obj e => some e

/-- The container count of a normalized result (`containers.length` when
the field is present — an empty array is truthy but has length 0 — else 0). -/
def containerCount (e : EnumObject) : Nat :=
  match e.containers with
  | some cs => cs.length
  | none => 0

/-- The per-instance rebasing step of the static `merge`: when the
appended instance has a `containerIdx` (`!= null`), add the offset. -/
def rebase (offset : Nat) (inst : Instance) : Instance :=
  match inst.containerIdx with
  | some idx => { inst with containerIdx := some (idx + offset) }
  | none => inst

/-- `ObjectEnumerationBuilder.merge`: normalize both inputs; if either is
falsy return `x || y`; otherwise append y's instances (rebased by x's
container count) onto x, and append y's containers unless `_.isEmpty`
holds of them. -/
def ObjectEnumerationBuilder.merge (x y : Enumeration) : Option EnumObject :=
  match ObjectEnumerationBuilder.normalize x, ObjectEnumerationBuilder.normalize y with
  | none, yN => yN
  | some xo, none => some xo
  | some xo, some yo =>
    let offset := containerCount xo
    let insts := xo.instances ++ yo.instances.map (rebase offset)
    let conts :=
      match yo.containers with
      | none => xo.containers
      | some ycs =>
        if ycs.isEmpty then xo.containers
        else
          match xo.containers with
          | some xcs => some (xcs ++ ycs)
          | none => some ycs
    some { instances := insts, containers := conts }

/-- One call against a live builder, for stating reachability invariants
over arbitrary call sequences. -/
inductive Op where
  | pushInst (inst : Instance) (mergeInstances : Bool)
  | pushCont (c : Container)
  | popCont
deriving DecidableEq, Repr

/-- Apply one call to the builder. -/
def Builder.step (b : Builder) : Op → Builder
  | .pushInst inst mi => b.pushInstance inst mi
  | .pushCont c => b.pushContainer c
  | .popCont => b.popContainer

/-- Run a call sequence against a fresh builder. -/
def runOps (ops : List Op) : Builder :=
  ops.foldl Builder.step Builder.empty

/-- Index-level description of the merge scan, written from the spec's
words for comparison with the source's loop (`mergeFirst`): the position of
the first accumulated instance satisfying the predicate, scanning in
insertion order. -/
def findFirstIdx (p : Instance → Bool) : List Instance → Option Nat
  | [] => none
  | x :: xs => if p x then some 0 else (findFirstIdx p xs).map (· + 1)

/-- Spec-side description of the instance list after a push: fold into the
first mergeable instance when one exists, otherwise append at the end. -/
def mergedListSpec (acc : List Instance) (inc : Instance) : List Instance :=
  match findFirstIdx (fun e => canMerge e inc) acc with
  | some i => acc.set i (mergeInto (acc.getD i inc) inc)
  | none => acc ++ [inc]

/-- Concrete fixture: instance with properties `{p: 1}`. -/
def instA : Instance :=
  { objectName := some "obj", selector := .undef, containerIdx := none,
    properties := some [("p", JSVal.vnum 1)], validValues := none }

/-- Concrete fixture: mergeable instance with properties `{p: 2, q: 3}`. -/
def instB : Instance :=
  { objectName := some "obj", selector := .undef, containerIdx := none,
    properties := some [("p", JSVal.vnum 2), ("q", JSVal.vnum 3)], validValues := none }

/-- Concrete fixture: like `instA` but with `p` set to the falsy value `0`. -/
def instA0 : Instance :=
  { objectName := some "obj", selector := .undef, containerIdx := none,
    properties := some [("p", JSVal.vnum 0)], validValues := none }

/-- Concrete fixture: one-container, one-instance result for the rebasing
example (instance bound to container 0). -/
def x7 : EnumObject :=
  { instances := [{ instA with containerIdx := some 0 }],
    containers := some [⟨1⟩] }

/-- Concrete fixture: second one-container, one-instance result for the
rebasing example. -/
def y7 : EnumObject :=
  { instances := [{ instB with containerIdx := some 0 }],
    containers := some [⟨2⟩] }

/-- Concrete fixture: expected result of merging `x7` and `y7`. -/
def e7 : EnumObject :=
  { instances := [{ instA with containerIdx := some 0 },
      { instB with containerIdx := some 1 }],
    containers := some [⟨1⟩, ⟨2⟩] }

lemma PropMap.get_set_self (m : PropMap) (k : String) (v : JSVal) :
    PropMap.get (PropMap.set m k v) k = v := by
  induction m with
  | nil => simp [PropMap.set, PropMap.get]
  | cons p ps ih =>
    by_cases hp : p.1 = k
    · simp [PropMap.set, PropMap.get, hp]
    · simp [PropMap.set, PropMap.get, hp, ih]

lemma PropMap.get_set_ne (m : PropMap) (k k' : String) (v : JSVal) (h : k' ≠ k) :
    PropMap.get (PropMap.set m k' v) k = PropMap.get m k := by
  induction m with
  | nil => simp [PropMap.set, PropMap.get, h]
  | cons p ps ih =>
    by_cases hp : p.1 = k'
    · simp [PropMap.set, PropMap.get, hp, h]
    · simp [PropMap.set, PropMap.get, hp, ih]

lemma extendVals_nil (t : PropMap) : extendVals t [] = t := rfl

lemma extendVals_cons (t : PropMap) (kv : String × JSVal) (s : PropMap) :
    extendVals t (kv :: s) =
      extendVals (if (PropMap.get t kv.1).truthy then t else PropMap.set t kv.1 kv.2) s := rfl

lemma extendVals_get_truthy (s : PropMap) : ∀ (t : PropMap) (k : String),
    (PropMap.get t k).truthy = true →
    PropMap.get (extendVals t s) k = PropMap.get t k := by
  induction s with
  | nil => intro t k _; rfl
  | cons kv s ih =>
    intro t k h
    rw [extendVals_cons]
    by_cases hk : kv.1 = k
    · rw [hk, if_pos h]
      exact ih t k h
    · by_cases ht : (PropMap.get t kv.1).truthy
      · rw [if_pos ht]
        exact ih t k h
      · rw [if_neg ht]
        have hget : PropMap.get (PropMap.set t kv.1 kv.2) k = PropMap.get t k :=
          PropMap.get_set_ne t k kv.1 kv.2 hk
        exact (ih _ k (by rw [hget]; exact h)).trans hget

lemma extendVals_get_not_mem (s : PropMap) : ∀ (t : PropMap) (k : String),
    (∀ kv ∈ s, kv.1 ≠ k) →
    PropMap.get (extendVals t s) k = PropMap.get t k := by
  induction s with
  | nil => intro t k _; rfl
  | cons kv s ih =>
    intro t k h
    rw [extendVals_cons]
    have hk : kv.1 ≠ k := h kv (List.mem_cons_self kv s)
    have htail : ∀ kv' ∈ s, kv'.1 ≠ k := fun kv' hm => h kv' (List.mem_cons_of_mem kv hm)
    by_cases ht : (PropMap.get t kv.1).truthy
    · rw [if_pos ht]
      exact ih t k htail
    · rw [if_neg ht]
      exact (ih _ k htail).trans (PropMap.get_set_ne t k kv.1 kv.2 hk)

lemma extendVals_get_copies (s : PropMap) : ∀ (t : PropMap) (k : String) (v : JSVal),
    (PropMap.get t k).truthy = false → (k, v) ∈ s → (s.map Prod.fst).Nodup →
    PropMap.get (extendVals t s) k = v := by
  induction s with
  | nil => intro t k v _ hmem _; simp at hmem
  | cons kv s ih =>
    intro t k v hf hmem hnd
    rw [List.map_cons] at hnd
    have hnotin := (List.nodup_cons.mp hnd).1
    have htail := (List.nodup_cons.mp hnd).2
    rw [extendVals_cons]
    rcases List.mem_cons.mp hmem with heq | hmem'
    · have hk1 : kv.1 = k := by rw [← heq]
      have hk2 : kv.2 = v := by rw [← heq]
      rw [hk1, hk2, if_neg (by rw [hf]; exact Bool.false_ne_true)]
      have hne : ∀ kv' ∈ s, kv'.1 ≠ k := by
        intro kv' hm hc
        rw [hk1] at hnotin
        exact hnotin (hc ▸ List.mem_map_of_mem Prod.fst hm)
      rw [extendVals_get_not_mem s _ k hne]
      exact PropMap.get_set_self t k v
    · have hk : kv.1 ≠ k := by
        intro hc
        have : k ∈ s.map Prod.fst := by
          have := List.mem_map_of_mem Prod.fst hmem'
          simpa using this
        exact hnotin (hc ▸ this)
      by_cases ht : (PropMap.get t kv.1).truthy
      · rw [if_pos ht]
        exact ih t k v hf hmem' htail
      · rw [if_neg ht]
        exact ih _ k v (by rw [PropMap.get_set_ne t k kv.1 kv.2 hk]; exact hf) hmem' htail

lemma mergeFirst_eq (inc : Instance) : ∀ acc : List Instance,
    mergeFirst acc inc = (findFirstIdx (fun e => canMerge e inc) acc).map
      (fun i => acc.set i (mergeInto (acc.getD i inc) inc)) := by
  intro acc
  induction acc with
  | nil => rfl
  | cons x xs ih =>
    by_cases h : canMerge x inc
    · simp [mergeFirst, findFirstIdx, h]
    · simp only [mergeFirst, findFirstIdx, h, if_neg, Bool.false_eq_true, ite_false, ih]
      cases hfind : findFirstIdx (fun e => canMerge e inc) xs with
      | none => simp
      | some j => simp [List.getD]

lemma pushInstance_containers (b : Builder) (inst : Instance) (mi : Bool) :
    (b.pushInstance inst mi).containers = b.containers := by
  unfold Builder.pushInstance
  by_cases h : mi <;> simp [h]
  cases mergeFirst (b.instances.getD []) (stampInstance b.containerIdx inst) <;> simp

lemma pushInstance_containerIdx (b : Builder) (inst : Instance) (mi : Bool) :
    (b.pushInstance inst mi).containerIdx = b.containerIdx := by
  unfold Builder.pushInstance
  by_cases h : mi <;> simp [h]
  cases mergeFirst (b.instances.getD []) (stampInstance b.containerIdx inst) <;> simp

lemma pushContainer_instances (b : Builder) (c : Container) :
    (b.pushContainer c).instances = b.instances := rfl

lemma popContainer_instances (b : Builder) :
    b.popContainer.instances = b.instances := rfl

lemma popContainer_containers (b : Builder) :
    b.popContainer.containers = b.containers := rfl

lemma mergeFirst_length (inc : Instance) : ∀ (acc l : List Instance),
    mergeFirst acc inc = some l → l.length = acc.length := by
  intro acc
  induction acc with
  | nil => intro l h; simp [mergeFirst] at h
  | cons x xs ih =>
    intro l h
    by_cases hc : canMerge x inc
    · simp [mergeFirst, hc] at h
      rw [← h]
      simp
    · simp only [mergeFirst, hc, Bool.false_eq_true, ite_false] at h
      cases hm : mergeFirst xs inc with
      | none => rw [hm] at h; simp at h
      | some xs' =>
        rw [hm] at h
        simp at h
        rw [← h]
        simp [ih xs' hm]

lemma foldl_containers_none (ops : List Op) : ∀ b : Builder,
    ((ops.foldl Builder.step b).containers = none) ↔
      (b.containers = none ∧ ∀ c : Container, Op.pushCont c ∉ ops) := by
  induction ops with
  | nil => intro b; simp
  | cons op ops ih =>
    intro b
    cases op with
    | pushInst i mi =>
      simp only [List.foldl_cons, Builder.step, ih, pushInstance_containers, List.mem_cons]
      constructor
      · rintro ⟨h1, h2⟩
        exact ⟨h1, fun c hc => h2 c (by simpa using hc)⟩
      · rintro ⟨h1, h2⟩
        exact ⟨h1, fun c hc => h2 c (Or.inr hc)⟩
    | pushCont c =>
      simp only [List.foldl_cons, Builder.step, ih, Builder.pushContainer, List.mem_cons]
      constructor
      · rintro ⟨h1, _⟩
        exact absurd h1 (by simp)
      · rintro ⟨_, h2⟩
        exact absurd (Or.inl rfl) (h2 c)
    | popCont =>
      simp only [List.foldl_cons, Builder.step, ih, popContainer_containers, List.mem_cons]
      constructor
      · rintro ⟨h1, h2⟩
        exact ⟨h1, fun c hc => h2 c (by simpa using hc)⟩
      · rintro ⟨h1, h2⟩
        exact ⟨h1, fun c hc => h2 c (Or.inr hc)⟩

lemma pushInstance_instances_ne_nil (b : Builder) (inst : Instance) (mi : Bool) :
    ∃ l, (b.pushInstance inst mi).instances = some l ∧ l ≠ [] := by
  unfold Builder.pushInstance
  by_cases hmi : mi
  · simp only [hmi, if_true]
    cases hm : mergeFirst (b.instances.getD []) (stampInstance b.containerIdx inst) with
    | none => exact ⟨_, rfl, by simp⟩
    | some acc' =>
      refine ⟨acc', rfl, ?_⟩
      intro hnil
      have hlen := mergeFirst_length _ _ _ hm
      rw [hnil] at hlen
      have hacc : b.instances.getD [] = [] := List.eq_nil_of_length_eq_zero hlen.symm
      rw [hacc] at hm
      simp [mergeFirst] at hm
  · simp only [hmi, if_false, Bool.false_eq_true]
    exact ⟨_, rfl, by simp⟩

lemma foldl_instances_ne_nil (ops : List Op) : ∀ b : Builder,
    (b.instances = none ∨ ∃ l, b.instances = some l ∧ l ≠ []) →
    ((ops.foldl Builder.step b).instances = none ∨
      ∃ l, (ops.foldl Builder.step b).instances = some l ∧ l ≠ []) := by
  induction ops with
  | nil => intro b h; exact h
  | cons op ops ih =>
    intro b h
    apply ih
    cases op with
    | pushCont c => simpa [Builder.step, pushContainer_instances] using h
    | popCont => simpa [Builder.step, popContainer_instances] using h
    | pushInst i mi => exact Or.inr (pushInstance_instances_ne_nil b i mi)

/-- C1 (amended): first-writer-wins on merged maps is guarded by
truthiness of the stored value. When push-instance merges an incoming
instance into an existing one, a key of the incoming `properties` (and
`validValues`) map is copied into the existing instance's map only if the
existing value at that key is not truthy; once a key holds a truthy value
on the kept instance, a later merge attempt does not overwrite it; pushing
A with properties `{p: 1}` then a mergeable B with `{p: 2, q: 3}` yields
one instance with properties `{p: 1, q: 3}`. -/
theorem extend_first_writer_wins :
    (∀ (t s : PropMap) (k : String), (PropMap.get t k).truthy = true →
      PropMap.get (extendVals t s) k = PropMap.get t k) ∧
    (∀ (t s : PropMap) (k : String) (v : JSVal), (PropMap.get t k).truthy = false →
      (k, v) ∈ s → (s.map Prod.fst).Nodup →
      PropMap.get (extendVals t s) k = v) ∧
    (∀ (tgt src : Instance) (k : String),
      (PropMap.get (tgt.properties.getD []) k).truthy = true →
      PropMap.get ((mergeInto tgt src).properties.getD []) k
        = PropMap.get (tgt.properties.getD []) k) ∧
    (∀ (tgt src : Instance) (k : String),
      (PropMap.get (tgt.validValues.getD []) k).truthy = true →
      PropMap.get ((mergeInto tgt src).validValues.getD []) k
        = PropMap.get (tgt.validValues.getD []) k) ∧
    ((Builder.empty.pushInstance instA true).pushInstance instB true).instances
      = some [{ instA with properties := some [("p", JSVal.vnum 1), ("q", JSVal.vnum 3)] }] := by
  refine ⟨fun t s k h => extendVals_get_truthy s t k h,
    fun t s k v hf hm hnd => extendVals_get_copies s t k v hf hm hnd, ?_, ?_, by decide⟩
  · intro tgt src k h
    cases hsp : src.properties with
    | none => simp [mergeInto, extendField, hsp]
    | some sp => simp [mergeInto, extendField, hsp, extendVals_get_truthy sp _ k h]
  · intro tgt src k h
    cases hsp : src.validValues with
    | none => simp [mergeInto, extendField, hsp]
    | some sp => simp [mergeInto, extendField, hsp, extendVals_get_truthy sp _ k h]

/-- C1 counterexample: the claim as stated ("once a property key is set on
the kept instance, a later merge attempt does not overwrite its value")
fails when the key is set to a falsy value. With `p` set to `0` on the
kept instance, merging an instance with `{p: 2, q: 3}` overwrites `p`. -/
theorem extend_overwrites_falsy_value :
    PropMap.get (instA0.properties.getD []) "p" = JSVal.vnum 0 ∧
    (((Builder.empty.pushInstance instA0 true).pushInstance instB true).instances).map
        (fun l => l.map (fun i => PropMap.get (i.properties.getD []) "p"))
      = some [JSVal.vnum 2] ∧
    (JSVal.vnum 2 == JSVal.vnum 0) = false := by decide

/-- Witness for the amended C1 theorem at the claim's own example. -/
theorem extend_first_writer_wins_witness :
    PropMap.get (extendVals [("p", JSVal.vnum 1)] [("p", JSVal.vnum 2), ("q", JSVal.vnum 3)]) "p"
      = JSVal.vnum 1 ∧
    PropMap.get (extendVals [("p", JSVal.vnum 1)] [("p", JSVal.vnum 2), ("q", JSVal.vnum 3)]) "q"
      = JSVal.vnum 3 := by
  constructor
  · exact (extend_first_writer_wins.1 [("p", JSVal.vnum 1)]
      [("p", JSVal.vnum 2), ("q", JSVal.vnum 3)] "p" (by decide)).trans (by decide)
  · exact extend_first_writer_wins.2.1 [("p", JSVal.vnum 1)]
      [("p", JSVal.vnum 2), ("q", JSVal.vnum 3)] "q" (JSVal.vnum 3)
      (by decide) (by decide) (by decide)

/-- C6: the static merge treats the "no result" sentinel as an identity
element: merging it with a canonical result returns that result unchanged,
on either side, and merging two sentinels yields the sentinel. -/
theorem merge_noResult_identity :
    (∀ e : EnumObject,
      ObjectEnumerationBuilder.merge Enumeration.noResult (Enumeration.obj e) = some e) ∧
    (∀ e : EnumObject,
      ObjectEnumerationBuilder.merge (Enumeration.obj e) Enumeration.noResult = some e) ∧
    ObjectEnumerationBuilder.merge Enumeration.noResult Enumeration.noResult = none :=
  ⟨fun _ => rfl, fun _ => rfl, rfl⟩

/-- C9: normalize wraps the bare list form as an instances-only object (so
the two forms normalize identically), returns the canonical object form
unchanged, and maps the "no result" sentinel through unchanged. -/
theorem normalize_spec :
    (∀ xs : List Instance,
      ObjectEnumerationBuilder.normalize (Enumeration.list xs)
        = some { instances := xs, containers := none }) ∧
    (∀ e : EnumObject, ObjectEnumerationBuilder.normalize (Enumeration.obj e) = some e) ∧
    ObjectEnumerationBuilder.normalize Enumeration.noResult = none ∧
    (∀ xs : List Instance,
      ObjectEnumerationBuilder.normalize (Enumeration.list xs)
        = ObjectEnumerationBuilder.normalize
            (Enumeration.obj { instances := xs, containers := none })) :=
  ⟨fun _ => rfl, fun _ => rfl, rfl, fun _ => rfl⟩

/-- C3: the merge predicate holds exactly when `objectName`, `containerIdx`
(including both unset) and the selectors (per selector-equals) agree;
differing container indices block merging, so two otherwise-identical
instances pushed under different containers both survive finalize. -/
theorem canMerge_same_target :
    (∀ x y : Instance, canMerge x y = true ↔
      (x.objectName = y.objectName ∧ x.containerIdx = y.containerIdx ∧
        selectorEquals x.selector y.selector = true)) ∧
    (∀ x y : Instance, x.containerIdx ≠ y.containerIdx → canMerge x y = false) ∧
    (runOps [Op.pushCont ⟨1⟩, Op.pushInst instA true, Op.pushCont ⟨2⟩,
        Op.pushInst instA true]).complete
      = some
        { instances := [{ instA with containerIdx := some 0 },
            { instA with containerIdx := some 1 }],
          containers := some [⟨1⟩, ⟨2⟩] } := by
  have hiff : ∀ x y : Instance, canMerge x y = true ↔
      (x.objectName = y.objectName ∧ x.containerIdx = y.containerIdx ∧
        selectorEquals x.selector y.selector = true) := by
    intro x y
    simp [canMerge, Bool.and_eq_true, beq_iff_eq, and_assoc]
  refine ⟨hiff, ?_, by decide⟩
  intro x y h
  cases hc : canMerge x y with
  | false => rfl
  | true => exact absurd ((hiff x y).mp hc).2.1 h

/-- Witness for C3: two instances differing only in container index do not
merge. -/
theorem canMerge_same_target_witness :
    ({ instA with containerIdx := some 0 } : Instance).containerIdx
        ≠ ({ instA with containerIdx := some 1 } : Instance).containerIdx ∧
    canMerge { instA with containerIdx := some 0 } { instA with containerIdx := some 1 }
      = false :=
  ⟨by decide, canMerge_same_target.2.1 _ _ (by decide)⟩

/-- C4: push-container appends the container and points the cursor at the
just-appended index (old length); pop-container clears the cursor to unset
without restoring anything and touches nothing else; stamping copies a set
cursor onto the instance and leaves it alone otherwise; the claim's
concrete sequence yields `I1.containerIdx = 0` and `I2` unstamped. -/
theorem container_stamping :
    (∀ (b : Builder) (c : Container),
      b.pushContainer c = { b with
        containers := some (b.containers.getD [] ++ [c]),
        containerIdx := some (b.containers.getD []).length }) ∧
    (∀ b : Builder, b.popContainer = { b with containerIdx := none }) ∧
    (∀ (idx : Nat) (i : Instance), (stampInstance (some idx) i).containerIdx = some idx) ∧
    (∀ i : Instance, stampInstance none i = i) ∧
    (runOps [Op.pushCont ⟨1⟩, Op.pushInst instA true, Op.popCont,
        Op.pushInst instB true]).instances
      = some [{ instA with containerIdx := some 0 }, instB] := by
  refine ⟨?_, fun _ => rfl, fun _ _ => rfl, fun _ => rfl, by decide⟩
  intro b c
  simp [Builder.pushContainer]

/-- C5: finalize on a builder whose instance sequence was never allocated
is the "no result" sentinel regardless of containers; otherwise it is the
accumulated sequence together with the builder's container field; the
sentinel differs from an empty-but-valid result; and the container field is
unset exactly when no push-container call ever happened. -/
theorem complete_empty_distinct :
    (∀ (cs : Option (List Container)) (ci : Option Nat),
      Builder.complete { instances := none, containers := cs, containerIdx := ci } = none) ∧
    (∀ (insts : List Instance) (cs : Option (List Container)) (ci : Option Nat),
      Builder.complete { instances := some insts, containers := cs, containerIdx := ci }
        = some { instances := insts, containers := cs }) ∧
    ((none : Option EnumObject) == some { instances := [], containers := none }) = false ∧
    (∀ ops : List Op,
      (runOps ops).containers = none ↔ ∀ c : Container, Op.pushCont c ∉ ops) := by
  refine ⟨fun _ _ => rfl, fun _ _ _ => rfl, by decide, ?_⟩
  intro ops
  have h := foldl_containers_none ops Builder.empty
  simpa [Builder.empty, runOps] using h

/-- C8: selector equality normalizes every falsy selector to "no selector";
two "no selector" values are equal, a "no selector" and a real selector are
not, and two real selectors are equal exactly when their `id` and
`metadata` fields agree — no other field (such as `data`) is compared. -/
theorem selectorEquals_spec :
    (∀ x y : SelectorInput, selectorEquals x y = true ↔
      ((x.norm = none ∧ y.norm = none) ∨
        (∃ a b : Selector, x.norm = some a ∧ y.norm = some b ∧
          a.id = b.id ∧ a.metadata = b.metadata))) ∧
    selectorEquals SelectorInput.undef SelectorInput.fls = true ∧
    (∀ (i m d₁ d₂ : Option String),
      selectorEquals (SelectorInput.sel ⟨i, m, d₁⟩) (SelectorInput.sel ⟨i, m, d₂⟩) = true) ∧
    selectorEquals (SelectorInput.sel ⟨some "a", some "m", none⟩)
      (SelectorInput.sel ⟨some "a", some "m", none⟩) = true ∧
    selectorEquals (SelectorInput.sel ⟨some "a", some "m", none⟩)
      (SelectorInput.sel ⟨some "b", some "m", none⟩) = false ∧
    selectorEquals (SelectorInput.sel ⟨some "a", some "m", none⟩)
      (SelectorInput.sel ⟨some "a", some "n", none⟩) = false := by
  refine ⟨?_, rfl, ?_, by decide, by decide, by decide⟩
  · intro x y
    cases x <;> cases y <;>
      simp [selectorEquals, SelectorInput.norm, Bool.and_eq_true, beq_iff_eq]
  · intro i m d₁ d₂
    simp [selectorEquals, SelectorInput.norm]

/-- C2: push-instance stamps the incoming instance with the current
container cursor (when set) before any merge check; with merging enabled
the accumulated instances are scanned in insertion order and the incoming
instance's maps are folded into the first match instead of appending;
otherwise the stamped instance is appended at the end. Containers and
cursor are untouched. -/
theorem pushInstance_procedure :
    (∀ (b : Builder) (inst : Instance) (mi : Bool),
      b.pushInstance inst mi = { b with instances := some (
        if mi then mergedListSpec (b.instances.getD []) (stampInstance b.containerIdx inst)
        else b.instances.getD [] ++ [stampInstance b.containerIdx inst]) }) ∧
    (∀ (idx : Nat) (i : Instance), (stampInstance (some idx) i).containerIdx = some idx) ∧
    (∀ (b : Builder) (inst : Instance) (mi : Bool),
      (b.pushInstance inst mi).containers = b.containers ∧
      (b.pushInstance inst mi).containerIdx = b.containerIdx) := by
  refine ⟨?_, fun _ _ => rfl,
    fun b i mi => ⟨pushInstance_containers b i mi, pushInstance_containerIdx b i mi⟩⟩
  intro b inst mi
  unfold Builder.pushInstance mergedListSpec
  by_cases hmi : mi
  · simp only [hmi, if_true]
    rw [mergeFirst_eq]
    cases findFirstIdx (fun e => canMerge e (stampInstance b.containerIdx inst))
        (b.instances.getD []) with
    | none => simp
    | some i => simp
  · simp [hmi]

/-- C10: the instance sequence, once allocated, is never empty — the first
push appends and merging never removes entries — so finalize over any call
sequence yields either the "no result" sentinel or a result with at least
one instance; `{instances: []}` is unreachable. -/
theorem complete_never_empty_list (ops : List Op) :
    (runOps ops).complete = none ∨
      ∃ e : EnumObject, (runOps ops).complete = some e ∧ e.instances ≠ [] := by
  rcases foldl_instances_ne_nil ops Builder.empty (Or.inl rfl) with h | ⟨l, hl, hne⟩
  · left
    simp [Builder.complete, runOps] at h ⊢
    rw [h]
  · right
    refine ⟨{ instances := l, containers := (runOps ops).containers }, ?_, hne⟩
    simp [Builder.complete, runOps] at hl ⊢
    rw [hl]

/-- C7: when both inputs are canonical results, merge appends the second
result's instances in order after the first result's instances, rebasing
each appended instance's container index (when present) by the first
result's container count, and concatenates the container sequences. -/
theorem merge_rebasing (xo yo e : EnumObject)
    (h : ObjectEnumerationBuilder.merge (Enumeration.obj xo) (Enumeration.obj yo) = some e) :
    e.instances.length = xo.instances.length + yo.instances.length ∧
    (∀ i : Nat, i < xo.instances.length → e.instances[i]? = xo.instances[i]?) ∧
    (∀ j : Nat, e.instances[xo.instances.length + j]?
      = (yo.instances[j]?).map (rebase (containerCount xo))) ∧
    (∀ (inst : Instance) (idx : Nat), inst.containerIdx = some idx →
      (rebase (containerCount xo) inst).containerIdx = some (idx + containerCount xo)) ∧
    (∀ inst : Instance, inst.containerIdx = none → rebase (containerCount xo) inst = inst) ∧
    e.containers.getD [] = xo.containers.getD [] ++ yo.containers.getD [] := by
  unfold ObjectEnumerationBuilder.merge ObjectEnumerationBuilder.normalize at h
  simp only [Option.some.injEq] at h
  subst h
  refine ⟨by simp, ?_, ?_, ?_, ?_, ?_⟩
  · intro i hi
    rw [List.getElem?_append, if_pos hi]
  · intro j
    rw [List.getElem?_append_right (Nat.le_add_right _ _), Nat.add_sub_cancel_left,
      List.getElem?_map]
  · intro inst idx hidx
    simp [rebase, hidx]
  · intro inst hidx
    simp [rebase, hidx]
  · cases hy : yo.containers with
    | none => simp
    | some ycs =>
      cases hycs : ycs.isEmpty with
      | true =>
        have : ycs = [] := List.isEmpty_iff.mp hycs
        simp [this]
      | false =>
        have hne : ycs ≠ [] := by
          intro hnil
          rw [hnil] at hycs
          simp at hycs
        cases hx : xo.containers with
        | none => simp [hne]
        | some xcs => simp [hne]

/-- Witness for C7: merging two one-container, one-instance results yields
two containers with the second instance rebased to container index 1. -/
theorem merge_rebasing_witness :
    ObjectEnumerationBuilder.merge (Enumeration.obj x7) (Enumeration.obj y7) = some e7 ∧
    e7.containers.getD [] = x7.containers.getD [] ++ y7.containers.getD [] ∧
    e7.instances[x7.instances.length + 0]?
      = (y7.instances[0]?).map (rebase (containerCount x7)) ∧
    (e7.instances[1]?).map (fun i => i.containerIdx) = some (some 1) ∧
    e7.containers.getD [] = [⟨1⟩, ⟨2⟩] := by
  have h := merge_rebasing x7 y7 e7 (by decide)
  exact ⟨by decide, h.2.2.2.2.2, h.2.2.1 0, by decide, by decide⟩
